import Mathlib

/-!
Verification of the screen-capture module of the-ark (src/the_ark/screen_capture.py)
against its natural-language specification.

Images are modelled as row lists: a PIL image / numpy pixel array is a list of
rows, each row a list of pixel values (one natural number per pixel encodes the
full channel tuple; numpy.array_equal on two rows is list equality, which is
False when the shapes differ, exactly as in numpy).  A Python IndexError
(wrapped by the code into a ScreenshotException) is modelled by Except PyErr.
-/

/-- A PIL image: a width plus the pixel rows (row-major). The PIL height is the
number of rows. -/
structure PILImage where
  width : ℕ
  rows : List (List ℕ)
deriving DecidableEq, Repr

def PILImage.height (img : PILImage) : ℕ := img.rows.length

/-- Row access as numpy does it for in-bounds reads; getD-totalized for
convenient statements (all theorems only use in-bounds indices). -/
def PILImage.row (img : PILImage) (i : ℕ) : List ℕ := img.rows.getD i []

/-- A PIL crop box (left, upper, right, lower), as built by the source at
screen_capture.py:258 and :321. -/
structure CropBox where
  left : ℕ
  upper : ℕ
  right : ℕ
  lower : ℕ
deriving DecidableEq, Repr

/-- The crop box lies inside the bounds of the image it is applied to. -/
def withinBounds (b : CropBox) (img : PILImage) : Prop :=
  b.left ≤ b.right ∧ b.upper ≤ b.lower ∧ b.right ≤ img.width ∧ b.lower ≤ img.height

instance (b : CropBox) (img : PILImage) : Decidable (withinBounds b img) := by
  unfold withinBounds; infer_instance

/-- PIL Image.crop: the result always has the box dimensions; pixels read
outside the source are black (0). -/
def pilCrop (img : PILImage) (b : CropBox) : PILImage :=
  { width := b.right - b.left,
    rows := (List.range (b.lower - b.upper)).map (fun j =>
      (List.range (b.right - b.left)).map (fun k =>
        (img.rows.getD (b.upper + j) []).getD (b.left + k) 0)) }

/-- PIL paste of a row onto a width-w black canvas row at x = 0: truncate or
zero-pad the row to width w. -/
def fitRow (w : ℕ) (r : List ℕ) : List ℕ :=
  (List.range w).map (fun k => r.getD k 0)

/-- The crop box computed in _get_image_data (screen_capture.py:258):
(0, current_scroll_position, viewport_width, current_scroll_position + viewport_height). -/
def viewportCropBox (scroll vw vh : ℕ) : CropBox :=
  { left := 0, upper := scroll, right := vw, lower := scroll + vh }

/-- The crop box computed in _crop_and_stitch_image (screen_capture.py:321):
(0, crop_row, footer_image_width, footer_image_height). -/
def footerCropBox (cropRow : ℕ) (footer : PILImage) : CropBox :=
  { left := 0, upper := cropRow, right := footer.width, lower := footer.height }

/-- A Python exception raised inside _crop_and_stitch_image; the code wraps it
into a ScreenshotException (screen_capture.py:340-342). -/
inductive PyErr
  | indexError
deriving DecidableEq, Repr

/-- The inner verification loop of _crop_and_stitch_image
(screen_capture.py:303-311): iterate y over the trailing-row block; at each y
read footer_array[i + y] (IndexError when out of range); when it equals
block[y] and y = offset - 1, set crop_row = i + offset and break.  A mismatch
at y < offset - 1 does NOT abort the loop (there is no else branch in the
source). -/
def innerScan (footer : List (List ℕ)) (i offset : ℕ) :
    List (List ℕ) → ℕ → Except PyErr (Option ℕ)
  | [], _ => .ok none
  | brow :: rest, y =>
    match footer[i + y]? with
    | none => .error .indexError
    | some frow =>
      if frow = brow then
        if y = offset - 1 then .ok (some (i + offset))
        else innerScan footer i offset rest (y + 1)
      else innerScan footer i offset rest (y + 1)

/-- The outer scan of _crop_and_stitch_image (screen_capture.py:295-311):
enumerate the footer rows; at each index i whose row equals block[0]
(IndexError if the block is empty), run the inner loop; stop as soon as
crop_row is set.  Returns 0 when no row position sets crop_row, mirroring the
crop_row = 0 sentinel of the source. -/
def outerScan (footer block : List (List ℕ)) (offset : ℕ) :
    List (List ℕ) → ℕ → Except PyErr ℕ
  | [], _ => .ok 0
  | frow :: rest, i =>
    match block with
    | [] => .error .indexError
    | b0 :: _ =>
      if frow = b0 then
        match innerScan footer i offset block 0 with
        | .error e => .error e
        | .ok (some c) => .ok c
        | .ok none => outerScan footer block offset rest (i + 1)
      else outerScan footer block offset rest (i + 1)

/-- The offset clamp of _crop_and_stitch_image (screen_capture.py:287-288):
if self.pixel_match_offset > header_image_height, use the header height. -/
def stitchOffset (pmo h : ℕ) : ℕ := if pmo > h then h else pmo

/-- The trailing-row block header_last_hundred_rows =
header_array[header_image_height - offset : header_image_height]
(screen_capture.py:292). -/
def stitchBlock (pmo : ℕ) (header : PILImage) : List (List ℕ) :=
  header.rows.drop (header.height - stitchOffset pmo header.height)

/-- crop_row as computed by _crop_and_stitch_image (screen_capture.py:290-315):
the scan result, or the header height when the scan left crop_row at 0. -/
def computeCropRow (pmo : ℕ) (header footer : PILImage) : Except PyErr ℕ :=
  match outerScan footer.rows (stitchBlock pmo header)
      (stitchOffset pmo header.height) footer.rows 0 with
  | .error e => .error e
  | .ok c => .ok (if c = 0 then header.height else c)

/-- The configuration fields stored on the Screenshot instance in __init__
(screen_capture.py:39-46). -/
structure ScreenshotState where
  paginated : Bool
  headers : Option (List String)
  footers : Option (List String)
  scroll_padding : ℕ
  pixel_match_offset : ℕ
  file_extenson : String
deriving DecidableEq, Repr

/-- _crop_and_stitch_image (screen_capture.py:266-342).  Note that the clamp
assigns self.pixel_match_offset (a genuine mutation of the instance field,
screen_capture.py:288), so the updated state is returned alongside the image;
the mutation happens before the scan, so it survives even an IndexError. -/
def crop_and_stitch_image (st : ScreenshotState) (header footer : PILImage) :
    Except PyErr PILImage × ScreenshotState :=
  let st2 := { st with pixel_match_offset := stitchOffset st.pixel_match_offset header.height }
  match computeCropRow st.pixel_match_offset header footer with
  | .error e => (.error e, st2)
  | .ok cropRow =>
    let cropped := pilCrop footer (footerCropBox cropRow footer)
    (.ok { width := footer.width,
           rows := header.rows.map (fitRow footer.width) ++ cropped.rows }, st2)

/-- _get_image_data (screen_capture.py:232-264): mobile capability returns the
raw image; viewport_only crops to the (unclamped) viewport box; otherwise the
raw image is returned. -/
def get_image_data (mobile viewport_only : Bool) (img : PILImage)
    (scroll vw vh : ℕ) : PILImage :=
  if mobile then img
  else if viewport_only then pilCrop img (viewportCropBox scroll vw vh)
  else img

/-- One run of the _capture_paginated_page loop (screen_capture.py:215-229),
fuel-indexed: capture (count one image), scroll to pos + s where s =
viewport_height - scroll_padding (the browser clamps the resulting scroll
position to the maximum m), read the new position, and stop exactly when the
read equals the previous position.  Returns none when the fuel runs out before
the loop terminates. -/
def paginateCount : ℕ → ℕ → ℕ → ℕ → Option ℕ
  | 0, _, _, _ => none
  | fuel + 1, s, m, pos =>
    if min (pos + s) m = pos then some 1
    else (paginateCount fuel s m (min (pos + s) m)).map (fun n => n + 1)

/-- _capture_paginated_page for a page of height hp, viewport height v and
padding p, with the browser modelled (as the claim directs) as clamping scroll
positions to at most hp - v (0 when v exceeds hp): the loop starts at scroll
position 0 with step v - p. -/
def capture_paginated_count (hp v p fuel : ℕ) : Option ℕ :=
  paginateCount fuel (v - p) (hp - v) 0

/-- Modelled from the spec: the state a css selector can be in from the point
of view of the visibility toggles of selenium_helpers (the module
selenium_helpers.py is not part of src/, only its exception classes are
imported by screen_capture.py). -/
inductive ElemState
  | visible
  | hidden
  | absent
  | broken
deriving DecidableEq, Repr

/-- The exception classes imported from selenium_helpers
(screen_capture.py:3), plus a catch-all for any other failure. -/
inductive ToggleError
  | elementNotVisibleError
  | elementError
  | otherFailure
deriving DecidableEq, Repr

/-- Modelled from the spec: selenium_helpers.hide_element (missing from src/).
Per spec section 4.2 and the code comment at screen_capture.py:181, hiding an
already-invisible element fails with ElementNotVisibleError, hiding an absent
element fails with ElementError, and any other failure (modelled by the broken
state) raises some other exception. -/
def hide_element : ElemState → Except ToggleError ElemState
  | .visible => .ok .hidden
  | .hidden => .error .elementNotVisibleError
  | .absent => .error .elementError
  | .broken => .error .otherFailure

/-- Modelled from the spec: selenium_helpers.show_element (missing from src/).
Per spec section 4.2 and the code comment at screen_capture.py:197, showing an
absent element fails with ElementError; showing an element that is already
visible succeeds (the toggle is idempotent); any other failure raises some
other exception. -/
def show_element : ElemState → Except ToggleError ElemState
  | .visible => .ok .visible
  | .hidden => .ok .visible
  | .absent => .error .elementError
  | .broken => .error .otherFailure

/-- _hide_elements (screen_capture.py:172-185): attempt each selector in
order; swallow ElementNotVisibleError and ElementError and continue; any other
exception propagates immediately.  The result records how many selectors were
attempted and which exception (if any) propagated. -/
def hide_elements : List ElemState → ℕ × Option ToggleError
  | [] => (0, none)
  | s :: rest =>
    match hide_element s with
    | .ok _ => ((hide_elements rest).1 + 1, (hide_elements rest).2)
    | .error .elementNotVisibleError => ((hide_elements rest).1 + 1, (hide_elements rest).2)
    | .error .elementError => ((hide_elements rest).1 + 1, (hide_elements rest).2)
    | .error e => (1, some e)

/-- _show_elements (screen_capture.py:187-199): attempt each selector in
order; swallow only ElementError and continue; any other exception propagates
immediately. -/
def show_elements : List ElemState → ℕ × Option ToggleError
  | [] => (0, none)
  | s :: rest =>
    match show_element s with
    | .ok _ => ((show_elements rest).1 + 1, (show_elements rest).2)
    | .error .elementError => ((show_elements rest).1 + 1, (show_elements rest).2)
    | .error e => (1, some e)

/-- Python truthiness of the headers / footers fields: None and the empty list
are falsy (screen_capture.py:139). -/
def truthyList : Option (List String) → Bool
  | none => false
  | some l => decide (l ≠ [])

/-- The screenshot payloads delivered by the selenium round trips during one
capture step.  The browser interaction itself (scrolling, hiding, showing,
sleeping) never touches the configuration fields, so it is abstracted into the
images each acquisition returns; a scrolling-element capture uses one Browser
value per loop iteration. -/
structure Browser where
  headerShot : PILImage
  footerShot : PILImage
  plainShot : PILImage
  viewportShot : PILImage
  paginatedShots : List PILImage
deriving Repr

/-- A capture result: a single image file or an ordered sequence of them. -/
inductive CaptureOut
  | single (img : PILImage)
  | seq (imgs : List PILImage)
deriving Repr

/-- _capture_full_page (screen_capture.py:131-170): with both headers and
footers (truthy), capture the two regions and stitch them (the only branch
that can touch the configuration); otherwise a single acquisition. -/
def capture_full_page (st : ScreenshotState) (br : Browser) :
    Except PyErr PILImage × ScreenshotState :=
  if truthyList st.headers && truthyList st.footers then
    crop_and_stitch_image st br.headerShot br.footerShot
  else (.ok br.plainShot, st)

/-- capture_page (screen_capture.py:48-72): viewport-only, paginated, or full
page. -/
def capture_page (st : ScreenshotState) (viewport_only : Bool) (br : Browser) :
    Except PyErr CaptureOut × ScreenshotState :=
  if viewport_only then (.ok (.single br.viewportShot), st)
  else if st.paginated then (.ok (.seq br.paginatedShots), st)
  else
    match capture_full_page st br with
    | (.error e, st2) => (.error e, st2)
    | (.ok img, st2) => (.ok (.single img), st2)

/-- capture_scrolling_element (screen_capture.py:74-120): scroll the element
to the top, then loop: capture — the current viewport only, or, when
viewport_only is False, a full page via _capture_full_page
(screen_capture.py:100), which with truthy headers and footers invokes
_crop_and_stitch_image and can therefore clamp pixel_match_offset on every
iteration — then read get_is_element_scroll_position_at_bottom; stop when that
read is true, otherwise scroll the element and continue.  Each list entry
holds one iteration's screenshot payloads paired with its at-bottom read;
none models a run that needs more iterations than supplied.  An exception
aborts the loop with the state as mutated so far (the padding override is a
local variable and touches no field). -/
def capture_scrolling_element (viewport_only : Bool) :
    ScreenshotState → List (Browser × Bool) →
      Option (Except PyErr (List PILImage) × ScreenshotState)
  | _, [] => none
  | st, (br, atBottom) :: rest =>
    if viewport_only then
      if atBottom then some (.ok [br.viewportShot], st)
      else
        match capture_scrolling_element viewport_only st rest with
        | none => none
        | some (.error e, st2) => some (.error e, st2)
        | some (.ok imgs, st2) => some (.ok (br.viewportShot :: imgs), st2)
    else
      match capture_full_page st br with
      | (.error e, st1) => some (.error e, st1)
      | (.ok img, st1) =>
        if atBottom then some (.ok [img], st1)
        else
          match capture_scrolling_element viewport_only st1 rest with
          | none => none
          | some (.error e, st2) => some (.error e, st2)
          | some (.ok imgs, st2) => some (.ok (img :: imgs), st2)



theorem getD_drop (l : List (List ℕ)) (n m : ℕ) :
    (l.drop n).getD m [] = l.getD (n + m) [] := by
  simp [List.getD_eq_getElem?_getD, List.getElem?_drop]

theorem stitchOffset_le (pmo h : ℕ) : stitchOffset pmo h ≤ h := by
  unfold stitchOffset; split <;> omega

theorem stitchBlock_length (pmo : ℕ) (header : PILImage) :
    (stitchBlock pmo header).length = stitchOffset pmo header.height := by
  have h := stitchOffset_le pmo header.height
  simp [stitchBlock, PILImage.height] at h ⊢
  omega

theorem stitchBlock_getD (pmo : ℕ) (header : PILImage) (y : ℕ) :
    (stitchBlock pmo header).getD y [] =
      header.row (header.height - stitchOffset pmo header.height + y) := by
  simp [stitchBlock, PILImage.row, getD_drop]

theorem drop_cons_head (footer : List (List ℕ)) (i : ℕ) (frow : List ℕ)
    (rest : List (List ℕ)) (hdrop : footer.drop i = frow :: rest) :
    footer.getD i [] = frow ∧ i < footer.length ∧ footer.drop (i + 1) = rest := by
  have h0 : (footer.drop i)[0]? = some frow := by rw [hdrop]; simp
  rw [List.getElem?_drop] at h0
  rw [Nat.add_zero] at h0
  have hlen : i < footer.length := by
    by_contra hc
    rw [List.getElem?_eq_none (by omega)] at h0
    exact Option.noConfusion h0
  refine ⟨by simp [List.getD_eq_getElem?_getD, h0], hlen, ?_⟩
  have h1 : (footer.drop i).drop 1 = rest := by rw [hdrop]; rfl
  rwa [List.drop_drop] at h1

theorem innerScan_charOk (footer block : List (List ℕ)) (i offset : ℕ)
    (hlen : block.length = offset) (hinb : i + offset ≤ footer.length)
    (blk : List (List ℕ)) (y : ℕ) (hdrop : block.drop y = blk) (hy : y < offset) :
    innerScan footer i offset blk y =
      .ok (if footer.getD (i + offset - 1) [] = block.getD (offset - 1) []
           then some (i + offset) else none) := by
  induction blk generalizing y with
  | nil =>
    exfalso
    have hl := congrArg List.length hdrop
    simp [hlen] at hl
    omega
  | cons b rest ih =>
    obtain ⟨hby, hblt, hbrest⟩ := drop_cons_head block y b rest hdrop
    have hflt : i + y < footer.length := by omega
    have hfi : footer[i + y]? = some (footer.getD (i + y) []) := by
      rw [List.getElem?_eq_getElem hflt]
      simp [List.getD_eq_getElem?_getD, List.getElem?_eq_getElem hflt]
    by_cases hy1 : y = offset - 1
    · have hrlen : rest.length = 0 := by
        have hl := congrArg List.length hbrest
        simp [hlen] at hl
        omega
      have hrnil : rest = [] := List.eq_nil_of_length_eq_zero hrlen
      subst hrnil
      have hiy : i + y = i + offset - 1 := by omega
      have hbval : b = block.getD (offset - 1) [] := by rw [← hby, hy1]
      simp only [innerScan, hfi]
      by_cases hvb : footer.getD (i + y) [] = b
      · rw [if_pos hvb, if_pos hy1, if_pos (by rw [← hiy, ← hbval]; exact hvb)]
      · rw [if_neg hvb]
        have hcnd : ¬ footer.getD (i + offset - 1) [] = block.getD (offset - 1) [] := by
          rw [← hiy, ← hbval]; exact hvb
        rw [if_neg hcnd]
    · have hy2 : y + 1 < offset := by omega
      simp only [innerScan, hfi]
      by_cases hvb : footer.getD (i + y) [] = b
      · rw [if_pos hvb, if_neg hy1]
        exact ih (y + 1) hbrest hy2
      · rw [if_neg hvb]
        exact ih (y + 1) hbrest hy2

theorem innerScan_charErr (footer block : List (List ℕ)) (i offset : ℕ)
    (hlen : block.length = offset) (herr : footer.length < i + offset)
    (blk : List (List ℕ)) (y : ℕ) (hdrop : block.drop y = blk) (hy : y < offset) :
    innerScan footer i offset blk y = .error .indexError := by
  induction blk generalizing y with
  | nil =>
    exfalso
    have hl := congrArg List.length hdrop
    simp [hlen] at hl
    omega
  | cons b rest ih =>
    obtain ⟨hby, hblt, hbrest⟩ := drop_cons_head block y b rest hdrop
    cases hfi : footer[i + y]? with
    | none => simp [innerScan, hfi]
    | some v =>
      have hflt : i + y < footer.length := by
        by_contra hc
        rw [List.getElem?_eq_none (by omega)] at hfi
        exact Option.noConfusion hfi
      have hy1 : y ≠ offset - 1 := by omega
      have hy2 : y + 1 < offset := by omega
      simp only [innerScan, hfi]
      by_cases hvb : v = b
      · rw [if_pos hvb, if_neg hy1]
        exact ih (y + 1) hbrest hy2
      · rw [if_neg hvb]
        exact ih (y + 1) hbrest hy2

theorem outerScan_none (footer : List (List ℕ)) (b0 : List ℕ)
    (btail : List (List ℕ)) (offset : ℕ)
    (rem : List (List ℕ)) (i : ℕ) (hdrop : footer.drop i = rem)
    (hno : ∀ j, i ≤ j → j < footer.length → footer.getD j [] ≠ b0) :
    outerScan footer (b0 :: btail) offset rem i = .ok 0 := by
  induction rem generalizing i with
  | nil => simp [outerScan]
  | cons frow rest ih =>
    obtain ⟨hfi, hlt, hrest⟩ := drop_cons_head footer i frow rest hdrop
    have hneq : frow ≠ b0 := by rw [← hfi]; exact hno i le_rfl hlt
    simp only [outerScan]
    rw [if_neg hneq]
    exact ih (i + 1) hrest (fun j hj hjl => hno j (by omega) hjl)

theorem outerScan_found (footer : List (List ℕ)) (b0 : List ℕ)
    (btail : List (List ℕ)) (offset t : ℕ)
    (hlen : (b0 :: btail).length = offset)
    (htin : t + offset ≤ footer.length)
    (ht0 : footer.getD t [] = b0)
    (ht1 : footer.getD (t + offset - 1) [] = (b0 :: btail).getD (offset - 1) [])
    (rem : List (List ℕ)) (i : ℕ) (hdrop : footer.drop i = rem) (hit : i ≤ t)
    (hnoearly : ∀ j, i ≤ j → j < t →
      ¬(footer.getD j [] = b0 ∧
        footer.getD (j + offset - 1) [] = (b0 :: btail).getD (offset - 1) [])) :
    outerScan footer (b0 :: btail) offset rem i = .ok (t + offset) := by
  have hoff : 1 ≤ offset := by simp at hlen; omega
  induction rem generalizing i with
  | nil =>
    exfalso
    have hl := congrArg List.length hdrop
    simp at hl
    omega
  | cons frow rest ih =>
    obtain ⟨hfi, hlt, hrest⟩ := drop_cons_head footer i frow rest hdrop
    by_cases hieq : i = t
    · subst hieq
      have hfb : frow = b0 := by rw [← hfi, ht0]
      simp only [outerScan]
      rw [if_pos hfb,
        innerScan_charOk footer (b0 :: btail) i offset hlen htin (b0 :: btail) 0
          (by simp) hoff, if_pos ht1]
    · have hitlt : i < t := by omega
      by_cases hfb : frow = b0
      · have hin : i + offset ≤ footer.length := by omega
        have hcnd : ¬ footer.getD (i + offset - 1) [] = (b0 :: btail).getD (offset - 1) [] := by
          intro hc
          exact hnoearly i le_rfl hitlt ⟨by rw [hfi]; exact hfb, hc⟩
        simp only [outerScan]
        rw [if_pos hfb,
          innerScan_charOk footer (b0 :: btail) i offset hlen hin (b0 :: btail) 0
            (by simp) hoff, if_neg hcnd]
        exact ih (i + 1) hrest (by omega) (fun j hj hjt => hnoearly j (by omega) hjt)
      · simp only [outerScan]
        rw [if_neg hfb]
        exact ih (i + 1) hrest (by omega) (fun j hj hjt => hnoearly j (by omega) hjt)

theorem outerScan_safe (footer : List (List ℕ)) (b0 : List ℕ)
    (btail : List (List ℕ)) (offset : ℕ)
    (hlen : (b0 :: btail).length = offset)
    (hsafe : ∀ j, j < footer.length → footer.length < j + offset →
      footer.getD j [] ≠ b0)
    (rem : List (List ℕ)) (i : ℕ) (hdrop : footer.drop i = rem) :
    ∃ c, outerScan footer (b0 :: btail) offset rem i = .ok c := by
  have hoff : 1 ≤ offset := by simp at hlen; omega
  induction rem generalizing i with
  | nil => exact ⟨0, by simp [outerScan]⟩
  | cons frow rest ih =>
    obtain ⟨hfi, hlt, hrest⟩ := drop_cons_head footer i frow rest hdrop
    by_cases hfb : frow = b0
    · have hin : i + offset ≤ footer.length := by
        by_contra hc
        exact hsafe i hlt (by omega) (by rw [hfi]; exact hfb)
      have hchar := innerScan_charOk footer (b0 :: btail) i offset hlen hin
        (b0 :: btail) 0 (by simp) hoff
      by_cases hcnd : footer.getD (i + offset - 1) [] = (b0 :: btail).getD (offset - 1) []
      · refine ⟨i + offset, ?_⟩
        simp only [outerScan]
        rw [if_pos hfb, hchar, if_pos hcnd]
      · obtain ⟨c, hc⟩ := ih (i + 1) hrest
        refine ⟨c, ?_⟩
        simp only [outerScan]
        rw [if_pos hfb, hchar, if_neg hcnd]
        exact hc
    · obtain ⟨c, hc⟩ := ih (i + 1) hrest
      refine ⟨c, ?_⟩
      simp only [outerScan]
      rw [if_neg hfb]
      exact hc

theorem stitchOffset_pos (pmo h : ℕ) (hpm : 1 ≤ pmo) (hh : 1 ≤ h) :
    1 ≤ stitchOffset pmo h := by
  unfold stitchOffset; split <;> omega

theorem stitchBlock_shape (pmo : ℕ) (header : PILImage)
    (hpm : 1 ≤ pmo) (hh : 1 ≤ header.height) :
    ∃ btail, stitchBlock pmo header
      = header.row (header.height - stitchOffset pmo header.height) :: btail := by
  have hlen := stitchBlock_length pmo header
  have hoff := stitchOffset_pos pmo header.height hpm hh
  cases hb : stitchBlock pmo header with
  | nil => rw [hb] at hlen; simp at hlen; omega
  | cons b l =>
    refine ⟨l, ?_⟩
    have h0 : (stitchBlock pmo header).getD 0 [] = b := by rw [hb]; rfl
    rw [stitchBlock_getD, Nat.add_zero] at h0
    rw [h0]

theorem stitchBlock_last (pmo : ℕ) (header : PILImage)
    (hpm : 1 ≤ pmo) (hh : 1 ≤ header.height) :
    (stitchBlock pmo header).getD (stitchOffset pmo header.height - 1) []
      = header.row (header.height - 1) := by
  rw [stitchBlock_getD]
  have h1 := stitchOffset_le pmo header.height
  have hoff := stitchOffset_pos pmo header.height hpm hh
  congr 1
  omega

theorem pilCrop_height (img : PILImage) (b : CropBox) :
    (pilCrop img b).height = b.lower - b.upper := by
  simp [pilCrop, PILImage.height]

theorem pilCrop_width (img : PILImage) (b : CropBox) :
    (pilCrop img b).width = b.right - b.left := rfl

theorem pilCrop_pixel (img : PILImage) (b : CropBox) (j k : ℕ)
    (hj : j < b.lower - b.upper) (hk : k < b.right - b.left) :
    ((pilCrop img b).row j).getD k 0 = (img.row (b.upper + j)).getD (b.left + k) 0 := by
  simp [pilCrop, PILImage.row, List.getD_eq_getElem?_getD, List.getElem?_map,
    List.getElem?_range hj, List.getElem?_range hk]

theorem crop_and_stitch_of_cropRow (st : ScreenshotState) (header footer : PILImage)
    (c : ℕ) (hc : computeCropRow st.pixel_match_offset header footer = .ok c) :
    (crop_and_stitch_image st header footer).1
      = .ok { width := footer.width,
              rows := header.rows.map (fitRow footer.width)
                ++ (pilCrop footer (footerCropBox c footer)).rows } := by
  simp [crop_and_stitch_image, hc]

theorem stitched_dims (header footer : PILImage) (c : ℕ) :
    (PILImage.mk footer.width (header.rows.map (fitRow footer.width)
        ++ (pilCrop footer (footerCropBox c footer)).rows)).height
      = header.height + (footer.height - c)
    ∧ (PILImage.mk footer.width (header.rows.map (fitRow footer.width)
        ++ (pilCrop footer (footerCropBox c footer)).rows)).width = footer.width := by
  constructor
  · simp [PILImage.height, pilCrop, footerCropBox]
  · rfl

theorem paginateCount_pos (fuel : ℕ) :
    ∀ s m pos n, paginateCount fuel s m pos = some n → 1 ≤ n := by
  induction fuel with
  | zero => intro s m pos n h; simp [paginateCount] at h
  | succ k ih =>
    intro s m pos n h
    simp only [paginateCount] at h
    split at h
    · simp at h; omega
    · obtain ⟨a, ha, hn⟩ := Option.map_eq_some'.mp h
      omega

theorem paginateCount_run (s m : ℕ) (hs : 1 ≤ s) :
    ∀ fuel pos, pos ≤ m → m - pos < fuel →
    paginateCount fuel s m pos = some ((m - pos + s - 1) / s + 1) := by
  intro fuel
  induction fuel with
  | zero => intro pos h1 h2; omega
  | succ k ih =>
    intro pos hpm hfuel
    by_cases hpe : pos = m
    · subst hpe
      simp only [paginateCount]
      rw [if_pos (by omega)]
      rw [Nat.sub_self]
      rw [Nat.div_eq_of_lt (by omega)]
    · have hlt : pos < m := by omega
      have hnpos : pos < min (pos + s) m := lt_min (by omega) hlt
      have hne : ¬ min (pos + s) m = pos := by omega
      simp only [paginateCount]
      rw [if_neg hne]
      rw [ih (min (pos + s) m) (min_le_right _ _) (by omega)]
      simp only [Option.map_some']
      congr 1
      rcases le_or_lt (pos + s) m with hc | hc
      · have hmn : min (pos + s) m = pos + s := min_eq_left hc
        rw [hmn]
        have e1 : m - (pos + s) + s - 1 = m - pos - 1 := by omega
        have e2 : m - pos + s - 1 = (m - pos - 1) + s := by omega
        rw [e1, e2, Nat.add_div_right _ (by omega)]
      · have hmn : min (pos + s) m = m := min_eq_right (by omega)
        rw [hmn]
        have e1 : m - m + s - 1 = s - 1 := by omega
        have e2 : m - pos + s - 1 = (m - pos - 1) + s := by omega
        rw [e1, e2, Nat.add_div_right _ (by omega),
          Nat.div_eq_of_lt (by omega), Nat.div_eq_of_lt (by omega)]

theorem paginate_bound (hp v p : ℕ) (hP : p < v) (hHp : 1 ≤ hp) :
    ((hp - v) + (v - p) - 1) / (v - p) + 1 ≤ (hp + (v - p) - 1) / (v - p) := by
  have hs : 1 ≤ v - p := by omega
  rcases le_or_lt hp v with hc | hc
  · have h0 : hp - v = 0 := by omega
    rw [h0]
    have e1 : 0 + (v - p) - 1 = (v - p) - 1 := by omega
    rw [e1, Nat.div_eq_of_lt (by omega)]
    have h2 : 1 * (v - p) ≤ hp + (v - p) - 1 := by omega
    have h3 : 1 ≤ (hp + (v - p) - 1) / (v - p) :=
      (Nat.le_div_iff_mul_le (by omega)).mpr h2
    omega
  · have e2 : (hp - v) + (v - p) - 1 = (hp - v - 1) + (v - p) := by omega
    rw [e2, Nat.add_div_right _ (by omega)]
    have e3 : hp + (v - p) - 1 = (hp - 1) + (v - p) := by omega
    rw [e3, Nat.add_div_right _ (by omega)]
    have h4 : (hp - v - 1) + (v - p) ≤ hp - 1 := by omega
    have h5 : ((hp - v - 1) + (v - p)) / (v - p) ≤ (hp - 1) / (v - p) :=
      Nat.div_le_div_right h4
    rw [Nat.add_div_right _ (by omega)] at h5
    omega

theorem paginateCount_one_iff (fuel s m pos : ℕ) :
    paginateCount (fuel + 1) s m pos = some 1 ↔ min (pos + s) m = pos := by
  simp only [paginateCount]
  split
  · next h => simp [h]
  · next h =>
    constructor
    · intro hmap
      obtain ⟨a, ha, hn⟩ := Option.map_eq_some'.mp hmap
      have := paginateCount_pos fuel s m (min (pos + s) m) a ha
      omega
    · intro hmin; exact absurd hmin h

theorem stitchOffset_le_pmo (pmo h : ℕ) : stitchOffset pmo h ≤ pmo := by
  unfold stitchOffset; split <;> omega

theorem crop_and_stitch_snd (st : ScreenshotState) (header footer : PILImage) :
    (crop_and_stitch_image st header footer).2
      = { st with pixel_match_offset := stitchOffset st.pixel_match_offset header.height } := by
  simp only [crop_and_stitch_image]
  split <;> rfl

def hdrC1 : PILImage := { width := 1, rows := [[10], [20], [30]] }

def ftrC1 : PILImage := { width := 1, rows := [[10], [99], [30], [10], [20], [30]] }

/-- Claim C1: the spec says the seam scan verifies the full trailing block at a
candidate index before setting cropRow.  The code does not: a mismatch at an
intermediate block row does not abort the inner loop (screen_capture.py:306 has
no else branch), so only rows y = 0 and y = offset - 1 decide the match.  At
this input the code sets cropRow = 0 + 3 = 3 even though footer row 1 differs
from block row 1, while the first index whose full 3-row block matches is
i = 3 (full verification would give cropRow = 6). -/
theorem C1_seam_search_eval :
    computeCropRow 3 hdrC1 ftrC1 = .ok 3
    ∧ ftrC1.row 1 ≠ hdrC1.row 1
    ∧ ftrC1.row 3 = hdrC1.row 0
    ∧ ftrC1.row 4 = hdrC1.row 1
    ∧ ftrC1.row 5 = hdrC1.row 2 :=
  ⟨rfl, by decide, rfl, rfl, rfl⟩

def stC2 : ScreenshotState :=
  { paginated := false, headers := none, footers := none, scroll_padding := 100,
    pixel_match_offset := 3, file_extenson := "png" }

/-- Claim C2 counterexample: header 3 rows, footer 6 rows; the unique fully
matching N = 3 band is the last 3 rows of the header and begins at footer row
r = 3 (it occurs nowhere earlier); the claim predicts stitched height
3 + (6 - (3 + 3)) = 3, but the code accepts the decoy at i = 0 (middle block
row is not verified) and produces a stitched image of height 6. -/
theorem C2_stitch_overlap_counterexample :
    stitchOffset stC2.pixel_match_offset hdrC1.height = 3
    ∧ (∀ y, y < 3 → ftrC1.row (3 + y) = hdrC1.row (hdrC1.height - 3 + y))
    ∧ (∀ i, i < 3 → ¬ ∀ y, y < 3 → ftrC1.row (i + y) = hdrC1.row (hdrC1.height - 3 + y))
    ∧ (crop_and_stitch_image stC2 hdrC1 ftrC1).1.map PILImage.height = .ok 6
    ∧ hdrC1.height + (ftrC1.height - (3 + 3)) = 3 :=
  ⟨rfl, by decide, by decide, rfl, rfl⟩

/-- Claim C2 (amended): under the stated band hypotheses, strengthened so that
no index before r passes the seam test the code actually performs (first row
and last row of the block both match; the code skips the intermediate rows),
the stitched image has height H1 + (H2 - (r + N)) and the footer's width. -/
theorem C2_stitch_overlap (st : ScreenshotState) (header footer : PILImage) (r N : ℕ)
    (hN : stitchOffset st.pixel_match_offset header.height = N)
    (hN1 : 1 ≤ N)
    (hrN : r + N ≤ footer.height)
    (hband : ∀ y, y < N → footer.row (r + y) = header.row (header.height - N + y))
    (hnoearly : ∀ i, i < r →
      ¬(footer.row i = header.row (header.height - N)
        ∧ footer.row (i + N - 1) = header.row (header.height - 1))) :
    ∃ img, (crop_and_stitch_image st header footer).1 = .ok img
      ∧ img.height = header.height + (footer.height - (r + N))
      ∧ img.width = footer.width := by
  have hNle : N ≤ header.height := hN ▸ stitchOffset_le st.pixel_match_offset header.height
  have hpm : 1 ≤ st.pixel_match_offset := by
    have := stitchOffset_le_pmo st.pixel_match_offset header.height
    omega
  have hh : 1 ≤ header.height := by omega
  obtain ⟨btail, hblock⟩ := stitchBlock_shape st.pixel_match_offset header hpm hh
  rw [hN] at hblock
  have hblen : (header.row (header.height - N) :: btail).length = N := by
    rw [← hblock, stitchBlock_length, hN]
  have hlast : (header.row (header.height - N) :: btail).getD (N - 1) []
      = header.row (header.height - 1) := by
    rw [← hblock]
    have := stitchBlock_last st.pixel_match_offset header hpm hh
    rwa [hN] at this
  have ht0 : footer.rows.getD r [] = header.row (header.height - N) := by
    have := hband 0 (by omega)
    rwa [Nat.add_zero, Nat.add_zero] at this
  have ht1 : footer.rows.getD (r + N - 1) []
      = (header.row (header.height - N) :: btail).getD (N - 1) [] := by
    rw [hlast]
    have := hband (N - 1) (by omega)
    have e1 : r + (N - 1) = r + N - 1 := by omega
    have e2 : header.height - N + (N - 1) = header.height - 1 := by omega
    rwa [e1, e2] at this
  have houter : outerScan footer.rows (header.row (header.height - N) :: btail) N
      footer.rows 0 = .ok (r + N) := by
    apply outerScan_found footer.rows _ btail N r hblen hrN ht0 ht1 footer.rows 0 rfl
      (by omega)
    intro j hj0 hjr hcontra
    exact hnoearly j hjr ⟨hcontra.1, by rw [← hlast]; exact hcontra.2⟩
  have hcrop : computeCropRow st.pixel_match_offset header footer = .ok (r + N) := by
    unfold computeCropRow
    rw [hN, hblock, houter]
    simp
    omega
  refine ⟨_, crop_and_stitch_of_cropRow st header footer (r + N) hcrop, ?_, ?_⟩
  · exact (stitched_dims header footer (r + N)).1
  · exact (stitched_dims header footer (r + N)).2

def hdrC2w : PILImage := { width := 1, rows := [[10], [20], [30]] }

def ftrC2w : PILImage := { width := 1, rows := [[7], [8], [9], [10], [20], [30]] }

theorem C2_stitch_overlap_witness :
    ∃ img, (crop_and_stitch_image stC2 hdrC2w ftrC2w).1 = .ok img
      ∧ img.height = hdrC2w.height + (ftrC2w.height - (3 + 3))
      ∧ img.width = ftrC2w.width :=
  C2_stitch_overlap stC2 hdrC2w ftrC2w 3 3 rfl (by decide) (by decide) (by decide)
    (by decide)

def stC4 : ScreenshotState :=
  { paginated := false, headers := none, footers := none, scroll_padding := 100,
    pixel_match_offset := 100, file_extenson := "png" }

def hdrC4 : PILImage := { width := 1, rows := [[1], [2]] }

def ftrC4 : PILImage := { width := 1, rows := [[3], [4]] }

/-- Claim C4: offset clamping.  When the requested pixel_match_offset exceeds
the header height h, the effective offset used by _crop_and_stitch_image is h:
the clamp stores h into the configuration field, and the extracted trailing
block is the whole header. -/
theorem C4_offset_clamping (st : ScreenshotState) (header footer : PILImage)
    (hgt : header.height < st.pixel_match_offset) :
    stitchOffset st.pixel_match_offset header.height = header.height
    ∧ stitchBlock st.pixel_match_offset header = header.rows
    ∧ (crop_and_stitch_image st header footer).2.pixel_match_offset = header.height := by
  have h1 : stitchOffset st.pixel_match_offset header.height = header.height := by
    unfold stitchOffset
    rw [if_pos hgt]
  refine ⟨h1, ?_, ?_⟩
  · unfold stitchBlock
    rw [h1, Nat.sub_self, List.drop_zero]
  · rw [crop_and_stitch_snd, h1]

theorem C4_offset_clamping_witness :
    hdrC4.height < stC4.pixel_match_offset
    ∧ (stitchOffset stC4.pixel_match_offset hdrC4.height = hdrC4.height
      ∧ stitchBlock stC4.pixel_match_offset hdrC4 = hdrC4.rows
      ∧ (crop_and_stitch_image stC4 hdrC4 ftrC4).2.pixel_match_offset = hdrC4.height) :=
  ⟨by decide, C4_offset_clamping stC4 hdrC4 ftrC4 (by decide)⟩

def stC3 : ScreenshotState :=
  { paginated := false, headers := none, footers := none, scroll_padding := 100,
    pixel_match_offset := 2, file_extenson := "png" }

def hdrC3 : PILImage := { width := 1, rows := [[1], [2]] }

def ftrC3 : PILImage := { width := 1, rows := [[5], [6]] }

/-- Claim C3 counterexample: header height 2, footer height 2, offset 2, and no
block of the footer matches the header's trailing rows anywhere.  The claim
predicts stitched height H1 + H2 = 4, but the code crops the footer at
crop_row = H1 = 2, leaving an empty cropped footer, so the stitched image has
height 2. -/
theorem C3_stitch_fallback_counterexample :
    (∀ i, i < ftrC3.height → ¬ ∀ y, y < 2 → ftrC3.row (i + y) = hdrC3.row y)
    ∧ computeCropRow stC3.pixel_match_offset hdrC3 ftrC3 = .ok 2
    ∧ (crop_and_stitch_image stC3 hdrC3 ftrC3).1.map PILImage.height = .ok 2
    ∧ hdrC3.height + ftrC3.height = 4 :=
  ⟨by decide, rfl, rfl, rfl⟩

/-- Claim C3 (amended): when no footer row equals the first row of the header's
trailing block (in particular no offset-row block of the footer matches),
crop_row falls back to the header height H1 and the stitched image has height
H1 + (H2 - H1) — that is, H2 when H1 ≤ H2, and never H1 + H2 — with the
footer's width. -/
theorem C3_stitch_fallback (st : ScreenshotState) (header footer : PILImage)
    (hpm : 1 ≤ st.pixel_match_offset) (hh : 1 ≤ header.height)
    (hno : ∀ j, j < footer.height →
      footer.row j ≠ header.row
        (header.height - stitchOffset st.pixel_match_offset header.height)) :
    computeCropRow st.pixel_match_offset header footer = .ok header.height
    ∧ ∃ img, (crop_and_stitch_image st header footer).1 = .ok img
        ∧ img.height = header.height + (footer.height - header.height)
        ∧ img.width = footer.width := by
  obtain ⟨btail, hblock⟩ := stitchBlock_shape st.pixel_match_offset header hpm hh
  have houter : outerScan footer.rows
      (header.row (header.height - stitchOffset st.pixel_match_offset header.height) :: btail)
      (stitchOffset st.pixel_match_offset header.height) footer.rows 0 = .ok 0 := by
    apply outerScan_none footer.rows _ btail _ footer.rows 0 rfl
    intro j hj0 hjl
    exact hno j hjl
  have hcrop : computeCropRow st.pixel_match_offset header footer = .ok header.height := by
    unfold computeCropRow
    rw [hblock, houter]
    rfl
  refine ⟨hcrop, _, crop_and_stitch_of_cropRow st header footer header.height hcrop, ?_, ?_⟩
  · exact (stitched_dims header footer header.height).1
  · exact (stitched_dims header footer header.height).2

theorem C3_stitch_fallback_witness :
    computeCropRow stC3.pixel_match_offset hdrC3 ftrC3 = .ok hdrC3.height
    ∧ ∃ img, (crop_and_stitch_image stC3 hdrC3 ftrC3).1 = .ok img
        ∧ img.height = hdrC3.height + (ftrC3.height - hdrC3.height)
        ∧ img.width = ftrC3.width :=
  C3_stitch_fallback stC3 hdrC3 ftrC3 (by decide) (by decide) (by decide)

/-- Claim C5 counterexample: for page height 3000, viewport 800, padding 100
the paginated loop performs 5 captures, not the 4 stated by the claim (indeed
ceil(3000/700) = 5, not 4, so the claim's own bound already contradicts its
example). -/
theorem C5_pagination_counterexample :
    capture_paginated_count 3000 800 100 2201 = some 5 ∧ (5 : ℕ) ≠ 4 := by
  constructor
  · have h := paginateCount_run 700 2200 (by norm_num) 2201 0 (by norm_num) (by norm_num)
    rw [show (2200 - 0 + 700 - 1) / 700 + 1 = 5 by norm_num] at h
    exact h
  · decide

/-- Claim C5 (amended): for page height Hp ≥ 1, viewport height V and padding P
with P < V, with the browser clamping scroll positions to at most Hp - V, the
paginated loop terminates, capturing exactly ceil((Hp-V)/(V-P)) + 1 images,
which is at most ceil(Hp/(V-P)); a loop step terminates exactly when the newly
read scroll position equals the previous one; at (3000, 800, 100) the count is
5, not 4. -/
theorem C5_pagination (hp v p : ℕ) (hP : p < v) (hHp : 1 ≤ hp) :
    capture_paginated_count hp v p ((hp - v) + 1)
      = some (((hp - v) + (v - p) - 1) / (v - p) + 1)
    ∧ ((hp - v) + (v - p) - 1) / (v - p) + 1 ≤ (hp + (v - p) - 1) / (v - p)
    ∧ (∀ fuel pos, paginateCount (fuel + 1) (v - p) (hp - v) pos = some 1
        ↔ min (pos + (v - p)) (hp - v) = pos) := by
  refine ⟨?_, paginate_bound hp v p hP hHp,
    fun fuel pos => paginateCount_one_iff fuel (v - p) (hp - v) pos⟩
  unfold capture_paginated_count
  exact paginateCount_run (v - p) (hp - v) (by omega) ((hp - v) + 1) 0 (by omega)
    (by omega)

theorem C5_pagination_witness :
    (100 < 800 ∧ (1 : ℕ) ≤ 3000)
    ∧ capture_paginated_count 3000 800 100 2201 = some 5 := by
  refine ⟨⟨by norm_num, by norm_num⟩, ?_⟩
  have h := (C5_pagination 3000 800 100 (by norm_num) (by norm_num)).1
  rw [show ((3000 - 800) + (800 - 100) - 1) / (800 - 100) + 1 = 5 by norm_num] at h
  exact h

theorem capture_full_page_snd (st : ScreenshotState) (br : Browser) :
    (capture_full_page st br).2
      = if (truthyList st.headers && truthyList st.footers) = true
        then { st with pixel_match_offset :=
                stitchOffset st.pixel_match_offset br.headerShot.height }
        else st := by
  cases htr : truthyList st.headers && truthyList st.footers with
  | false => simp [capture_full_page, htr]
  | true => simp [capture_full_page, htr, crop_and_stitch_snd]

theorem capture_page_snd (st : ScreenshotState) (vo : Bool) (br : Browser) :
    (capture_page st vo br).2
      = if vo = false ∧ st.paginated = false
            ∧ (truthyList st.headers && truthyList st.footers) = true
        then { st with pixel_match_offset :=
                stitchOffset st.pixel_match_offset br.headerShot.height }
        else st := by
  cases vo with
  | true => simp [capture_page]
  | false =>
    cases hpag : st.paginated with
    | true => simp [capture_page, hpag]
    | false =>
      have hsnd := capture_full_page_snd st br
      cases htr : truthyList st.headers && truthyList st.footers with
      | false =>
        rw [htr] at hsnd
        simp at hsnd
        rcases hres : capture_full_page st br with ⟨res, st2⟩
        rw [hres] at hsnd
        cases res <;> simp [capture_page, hpag, hres, hsnd, htr]
      | true =>
        rw [htr] at hsnd
        simp at hsnd
        rcases hres : capture_full_page st br with ⟨res, st2⟩
        rw [hres] at hsnd
        cases res <;> simp [capture_page, hpag, hres, hsnd, htr]

def stC6 : ScreenshotState :=
  { paginated := false, headers := some ["nav"], footers := some ["foot"],
    scroll_padding := 100, pixel_match_offset := 100, file_extenson := "png" }

def brC6 : Browser :=
  { headerShot := { width := 1, rows := [[1], [2]] },
    footerShot := { width := 1, rows := [[3], [4]] },
    plainShot := { width := 1, rows := [[0]] },
    viewportShot := { width := 1, rows := [[0]] },
    paginatedShots := [] }

/-- Claim C6 counterexample: a full-page capture with both headers and footers
configured, pixel_match_offset 100 and a header capture of height 2, leaves
pixel_match_offset = 2 on the instance after the call — the clamp at
screen_capture.py:288 assigns the instance field, so the configuration is not
immutable. -/
theorem C6_config_immutability_counterexample :
    (capture_page stC6 false brC6).2.pixel_match_offset = 2
    ∧ stC6.pixel_match_offset = 100
    ∧ (2 : ℕ) ≠ 100 :=
  ⟨rfl, rfl, by decide⟩

theorem stitchOffset_eq_min (pmo h : ℕ) : stitchOffset pmo h = min pmo h := by
  unfold stitchOffset
  split <;> omega

/-- The configuration state after the full-page captures of a sequence of
scrolling-element iterations: each iteration threads its state through
capture_full_page. -/
def stateAfterFull (st : ScreenshotState) : List (Browser × Bool) → ScreenshotState
  | [] => st
  | (br, _) :: rest => stateAfterFull (capture_full_page st br).2 rest

theorem capture_full_page_fields (st : ScreenshotState) (br : Browser) :
    (capture_full_page st br).2.paginated = st.paginated
    ∧ (capture_full_page st br).2.headers = st.headers
    ∧ (capture_full_page st br).2.footers = st.footers
    ∧ (capture_full_page st br).2.scroll_padding = st.scroll_padding
    ∧ (capture_full_page st br).2.file_extenson = st.file_extenson := by
  rw [capture_full_page_snd]
  split <;> simp

theorem stateAfterFull_fields (pre : List (Browser × Bool)) :
    ∀ st : ScreenshotState,
      (stateAfterFull st pre).paginated = st.paginated
      ∧ (stateAfterFull st pre).headers = st.headers
      ∧ (stateAfterFull st pre).footers = st.footers
      ∧ (stateAfterFull st pre).scroll_padding = st.scroll_padding
      ∧ (stateAfterFull st pre).file_extenson = st.file_extenson := by
  induction pre with
  | nil =>
    intro st
    exact ⟨rfl, rfl, rfl, rfl, rfl⟩
  | cons step rest ih =>
    obtain ⟨br, atBottom⟩ := step
    intro st
    have h1 := capture_full_page_fields st br
    have h2 := ih (capture_full_page st br).2
    have hstep : stateAfterFull st ((br, atBottom) :: rest)
        = stateAfterFull (capture_full_page st br).2 rest := rfl
    rw [hstep]
    exact ⟨h2.1.trans h1.1, h2.2.1.trans h1.2.1, h2.2.2.1.trans h1.2.2.1,
      h2.2.2.2.1.trans h1.2.2.2.1, h2.2.2.2.2.trans h1.2.2.2.2⟩

theorem stateAfterFull_pmo_false (pre : List (Browser × Bool)) :
    ∀ st : ScreenshotState,
      (truthyList st.headers && truthyList st.footers) = false →
      stateAfterFull st pre = st := by
  induction pre with
  | nil =>
    intro st htr
    rfl
  | cons step rest ih =>
    obtain ⟨br, atBottom⟩ := step
    intro st htr
    have hsnd := capture_full_page_snd st br
    rw [htr] at hsnd
    simp at hsnd
    have hstep : stateAfterFull st ((br, atBottom) :: rest)
        = stateAfterFull (capture_full_page st br).2 rest := rfl
    rw [hstep, hsnd]
    exact ih st htr

theorem stateAfterFull_pmo_true (pre : List (Browser × Bool)) :
    ∀ st : ScreenshotState,
      (truthyList st.headers && truthyList st.footers) = true →
      (stateAfterFull st pre).pixel_match_offset
        = (pre.map (fun q => q.1.headerShot.height)).foldl min
            st.pixel_match_offset := by
  induction pre with
  | nil =>
    intro st htr
    rfl
  | cons step rest ih =>
    obtain ⟨br, atBottom⟩ := step
    intro st htr
    have hsnd := capture_full_page_snd st br
    rw [htr] at hsnd
    simp at hsnd
    have hstep : stateAfterFull st ((br, atBottom) :: rest)
        = stateAfterFull (capture_full_page st br).2 rest := rfl
    have hf := capture_full_page_fields st br
    have htr2 : (truthyList (capture_full_page st br).2.headers
        && truthyList (capture_full_page st br).2.footers) = true := by
      rw [hf.2.1, hf.2.2.1]
      exact htr
    have hpmo : (capture_full_page st br).2.pixel_match_offset
        = stitchOffset st.pixel_match_offset br.headerShot.height := by
      rw [hsnd]
    rw [hstep, ih _ htr2, hpmo]
    simp [stitchOffset_eq_min, List.foldl_cons]

theorem capture_scrolling_viewport_state (steps : List (Browser × Bool)) :
    ∀ st res st2, capture_scrolling_element true st steps = some (res, st2) →
      st2 = st := by
  induction steps with
  | nil =>
    intro st res st2 h
    simp [capture_scrolling_element] at h
  | cons step rest ih =>
    obtain ⟨br, atBottom⟩ := step
    intro st res st2 h
    cases atBottom with
    | true =>
      simp only [capture_scrolling_element] at h
      simp at h
      exact h.2.symm
    | false =>
      simp only [capture_scrolling_element] at h
      simp at h
      rcases hrec : capture_scrolling_element true st rest with _ | ⟨res3, st3⟩
      · rw [hrec] at h
        simp at h
      · rw [hrec] at h
        cases res3 with
        | error e =>
          simp at h
          rw [← h.2]
          exact ih st (.error e) st3 hrec
        | ok imgs =>
          simp at h
          rw [← h.2]
          exact ih st (.ok imgs) st3 hrec

theorem capture_scrolling_prefix (steps : List (Browser × Bool)) :
    ∀ st res st2, capture_scrolling_element false st steps = some (res, st2) →
      ∃ pre suf, steps = pre ++ suf ∧ pre ≠ []
        ∧ st2 = stateAfterFull st pre := by
  induction steps with
  | nil =>
    intro st res st2 h
    simp [capture_scrolling_element] at h
  | cons step rest ih =>
    obtain ⟨br, atBottom⟩ := step
    intro st res st2 h
    simp only [capture_scrolling_element] at h
    simp at h
    rcases hfull : capture_full_page st br with ⟨res1, st1⟩
    rw [hfull] at h
    have hone : ∀ b : Bool, stateAfterFull st [(br, b)] = st1 := by
      intro b
      simp [stateAfterFull, hfull]
    cases res1 with
    | error e =>
      simp at h
      exact ⟨[(br, atBottom)], rest, rfl, by simp, by rw [hone, ← h.2]⟩
    | ok img =>
      cases atBottom with
      | true =>
        simp at h
        exact ⟨[(br, true)], rest, rfl, by simp, by rw [hone, ← h.2]⟩
      | false =>
        simp at h
        rcases hrec : capture_scrolling_element false st1 rest with _ | ⟨res3, st3⟩
        · rw [hrec] at h
          simp at h
        · rw [hrec] at h
          have hst23 : st2 = st3 := by
            cases res3 with
            | error e =>
              simp at h
              exact h.2.symm
            | ok imgs =>
              simp at h
              exact h.2.symm
          obtain ⟨pre2, suf2, hsplit, hne2, hst3⟩ := ih st1 res3 st3 hrec
          refine ⟨(br, false) :: pre2, suf2, by rw [hsplit]; rfl, by simp, ?_⟩
          have hcons : stateAfterFull st ((br, false) :: pre2)
              = stateAfterFull (capture_full_page st br).2 pre2 := rfl
          rw [hst23, hst3, hcons, hfull]

/-- Claim C6 (amended): capture_page and capture_scrolling_element preserve
paginated, headers, footers, scroll_padding and file_extenson for all inputs.
pixel_match_offset is preserved except when _crop_and_stitch_image runs: in a
non-paginated non-viewport capture_page call with truthy headers and footers
it is clamped once to min(previous value, header capture height); in a
capture_scrolling_element call with viewport_only False (screen_capture.py:100)
every executed iteration runs a full-page capture, so the stored offset ends
as the running min of its initial value with the header capture heights of the
executed prefix of iterations (again only when headers and footers are
truthy); with viewport_only True the configuration is unchanged. -/
theorem C6_config_frame (st : ScreenshotState) (vo : Bool) (br : Browser)
    (steps : List (Browser × Bool)) :
    ((capture_page st vo br).2.paginated = st.paginated
      ∧ (capture_page st vo br).2.headers = st.headers
      ∧ (capture_page st vo br).2.footers = st.footers
      ∧ (capture_page st vo br).2.scroll_padding = st.scroll_padding
      ∧ (capture_page st vo br).2.file_extenson = st.file_extenson)
    ∧ (capture_page st vo br).2.pixel_match_offset
        = (if vo = false ∧ st.paginated = false
              ∧ (truthyList st.headers && truthyList st.footers) = true
           then stitchOffset st.pixel_match_offset br.headerShot.height
           else st.pixel_match_offset)
    ∧ (∀ res st2, capture_scrolling_element true st steps = some (res, st2) →
        st2 = st)
    ∧ (∀ res st2, capture_scrolling_element false st steps = some (res, st2) →
        (st2.paginated = st.paginated ∧ st2.headers = st.headers
          ∧ st2.footers = st.footers ∧ st2.scroll_padding = st.scroll_padding
          ∧ st2.file_extenson = st.file_extenson)
        ∧ ∃ pre suf, steps = pre ++ suf ∧ pre ≠ []
            ∧ st2.pixel_match_offset
                = (if (truthyList st.headers && truthyList st.footers) = true
                   then (pre.map (fun q => q.1.headerShot.height)).foldl min
                          st.pixel_match_offset
                   else st.pixel_match_offset)) := by
  rw [capture_page_snd]
  refine ⟨⟨?_, ?_, ?_, ?_, ?_⟩, ?_, ?_, ?_⟩
  · split <;> simp_all
  · split <;> simp_all
  · split <;> simp_all
  · split <;> simp_all
  · split <;> simp_all
  · split <;> simp_all
  · exact fun res st2 h => capture_scrolling_viewport_state steps st res st2 h
  · intro res st2 h
    obtain ⟨pre, suf, hsplit, hne, hst2⟩ := capture_scrolling_prefix steps st res st2 h
    refine ⟨?_, pre, suf, hsplit, hne, ?_⟩
    · rw [hst2]
      exact stateAfterFull_fields pre st
    · rw [hst2]
      cases htr : truthyList st.headers && truthyList st.footers with
      | true =>
        rw [stateAfterFull_pmo_true pre st htr]
        simp
      | false =>
        rw [stateAfterFull_pmo_false pre st htr]
        simp

theorem C6_config_frame_witness :
    capture_scrolling_element false stC6 [(brC6, true)]
        = some (.ok [{ width := 1, rows := [[1], [2]] }],
                { stC6 with pixel_match_offset := 2 })
    ∧ ({ stC6 with pixel_match_offset := 2 } : ScreenshotState).headers = stC6.headers
    ∧ (∃ pre suf, ([(brC6, true)] : List (Browser × Bool)) = pre ++ suf ∧ pre ≠ []
        ∧ ({ stC6 with pixel_match_offset := 2 } : ScreenshotState).pixel_match_offset
            = (if (truthyList stC6.headers && truthyList stC6.footers) = true
               then (pre.map (fun q => q.1.headerShot.height)).foldl min
                      stC6.pixel_match_offset
               else stC6.pixel_match_offset)) := by
  have heq : capture_scrolling_element false stC6 [(brC6, true)]
      = some (.ok [{ width := 1, rows := [[1], [2]] }],
              { stC6 with pixel_match_offset := 2 }) := rfl
  have h := (C6_config_frame stC6 false brC6 [(brC6, true)]).2.2.2
    (.ok [{ width := 1, rows := [[1], [2]] }])
    { stC6 with pixel_match_offset := 2 } heq
  exact ⟨heq, h.1.2.1, h.2⟩


def imgC7 : PILImage := { width := 1, rows := [[0]] }

/-- Claim C7 counterexample: with a 1-by-1 source image, scroll position 5,
viewport 1 by 3, _get_image_data builds and uses the crop box (0, 5, 1, 8),
whose bottom exceeds the image height — no clamping to source bounds happens
before the crop. -/
theorem C7_crop_clamping_counterexample :
    get_image_data false true imgC7 5 1 3 = pilCrop imgC7 (viewportCropBox 5 1 3)
    ∧ ¬ withinBounds (viewportCropBox 5 1 3) imgC7 :=
  ⟨rfl, by decide⟩

/-- Claim C7 (amended): the code performs no clamping.  The viewport crop box
(0, scroll, vw, scroll + vh) lies within the source bounds exactly when
scroll + vh ≤ image height and vw ≤ image width; the footer crop box
(0, cropRow, footer width, footer height) lies within the footer's bounds
exactly when cropRow ≤ footer height.  Outside those conditions the unclamped
box is used as-is (PIL pads the excess with black). -/
theorem C7_crop_box_bounds (scroll vw vh : ℕ) (img : PILImage)
    (cropRow : ℕ) (ftr : PILImage) :
    (withinBounds (viewportCropBox scroll vw vh) img
      ↔ scroll + vh ≤ img.height ∧ vw ≤ img.width)
    ∧ (withinBounds (footerCropBox cropRow ftr) ftr ↔ cropRow ≤ ftr.height) := by
  simp only [withinBounds, viewportCropBox, footerCropBox]
  constructor
  · constructor
    · intro h
      exact ⟨h.2.2.2, h.2.2.1⟩
    · intro h
      exact ⟨by omega, by omega, h.2, h.1⟩
  · constructor
    · intro h
      exact h.2.1
    · intro h
      exact ⟨by omega, h, le_rfl, le_rfl⟩

theorem hide_elements_clean (sts : List ElemState)
    (h : ∀ s ∈ sts, s ≠ ElemState.broken) :
    hide_elements sts = (sts.length, none) := by
  induction sts with
  | nil => rfl
  | cons s rest ih =>
    have hs : s ≠ ElemState.broken := h s (by simp)
    have hr := ih (fun t ht => h t (by simp [ht]))
    cases s with
    | visible => simp [hide_elements, hide_element, hr]
    | hidden => simp [hide_elements, hide_element, hr]
    | absent => simp [hide_elements, hide_element, hr]
    | broken => exact absurd rfl hs

theorem show_elements_clean (sts : List ElemState)
    (h : ∀ s ∈ sts, s ≠ ElemState.broken) :
    show_elements sts = (sts.length, none) := by
  induction sts with
  | nil => rfl
  | cons s rest ih =>
    have hs : s ≠ ElemState.broken := h s (by simp)
    have hr := ih (fun t ht => h t (by simp [ht]))
    cases s with
    | visible => simp [show_elements, show_element, hr]
    | hidden => simp [show_elements, show_element, hr]
    | absent => simp [show_elements, show_element, hr]
    | broken => exact absurd rfl hs

theorem hide_elements_broken (pre post : List ElemState)
    (h : ∀ s ∈ pre, s ≠ ElemState.broken) :
    hide_elements (pre ++ ElemState.broken :: post)
      = (pre.length + 1, some ToggleError.otherFailure) := by
  induction pre with
  | nil => rfl
  | cons s rest ih =>
    have hs : s ≠ ElemState.broken := h s (by simp)
    have hr := ih (fun t ht => h t (by simp [ht]))
    cases s with
    | visible => simp [hide_elements, hide_element, hr]
    | hidden => simp [hide_elements, hide_element, hr]
    | absent => simp [hide_elements, hide_element, hr]
    | broken => exact absurd rfl hs

theorem show_elements_broken (pre post : List ElemState)
    (h : ∀ s ∈ pre, s ≠ ElemState.broken) :
    show_elements (pre ++ ElemState.broken :: post)
      = (pre.length + 1, some ToggleError.otherFailure) := by
  induction pre with
  | nil => rfl
  | cons s rest ih =>
    have hs : s ≠ ElemState.broken := h s (by simp)
    have hr := ih (fun t ht => h t (by simp [ht]))
    cases s with
    | visible => simp [show_elements, show_element, hr]
    | hidden => simp [show_elements, show_element, hr]
    | absent => simp [show_elements, show_element, hr]
    | broken => exact absurd rfl hs

/-- Claim C8: tolerant visibility sweep.  When every selector's toggle either
succeeds or fails for a tolerated reason (absent, or already in a state
incompatible with the requested toggle), both the hide sweep and the show
sweep attempt every selector in order and swallow the failures; when some
selector fails for any other reason, the sweep stops right there: exactly the
selectors up to and including it were attempted and the failure propagates. -/
theorem C8_visibility_sweeps (sts : List ElemState) :
    ((∀ s ∈ sts, s ≠ ElemState.broken) →
      hide_elements sts = (sts.length, none)
      ∧ show_elements sts = (sts.length, none))
    ∧ (∀ pre post : List ElemState, (∀ s ∈ pre, s ≠ ElemState.broken) →
        hide_elements (pre ++ ElemState.broken :: post)
          = (pre.length + 1, some ToggleError.otherFailure)
        ∧ show_elements (pre ++ ElemState.broken :: post)
          = (pre.length + 1, some ToggleError.otherFailure)) :=
  ⟨fun h => ⟨hide_elements_clean sts h, show_elements_clean sts h⟩,
   fun pre post h => ⟨hide_elements_broken pre post h, show_elements_broken pre post h⟩⟩

theorem C8_visibility_sweeps_witness :
    (hide_elements [ElemState.visible, ElemState.hidden, ElemState.absent]
        = (3, none)
      ∧ show_elements [ElemState.visible, ElemState.hidden, ElemState.absent]
        = (3, none))
    ∧ (hide_elements [ElemState.hidden, ElemState.broken, ElemState.visible]
        = (2, some ToggleError.otherFailure)
      ∧ show_elements [ElemState.hidden, ElemState.broken, ElemState.visible]
        = (2, some ToggleError.otherFailure)) := by
  refine ⟨(C8_visibility_sweeps [ElemState.visible, ElemState.hidden, ElemState.absent]).1
    (by decide), ?_⟩
  have h := (C8_visibility_sweeps []).2 [ElemState.hidden] [ElemState.visible] (by decide)
  exact h

/-- Claim C9: mobile bypass.  With a mobile capability the raw decoded image is
returned unmodified; otherwise, for a viewport-only capture, the result is the
sub-image cropped to (0, currentScroll, viewportWidth, currentScroll +
viewportHeight): it has the viewport's dimensions and its pixel (j, k) is the
source pixel at row scroll + j, column k. -/
theorem C9_mobile_bypass (mobile vo : Bool) (img : PILImage) (scroll vw vh : ℕ) :
    (mobile = true → get_image_data mobile vo img scroll vw vh = img)
    ∧ (mobile = false → vo = true →
        get_image_data mobile vo img scroll vw vh
          = pilCrop img (viewportCropBox scroll vw vh)
        ∧ (get_image_data mobile vo img scroll vw vh).height = vh
        ∧ (get_image_data mobile vo img scroll vw vh).width = vw
        ∧ ∀ j k, j < vh → k < vw →
            ((get_image_data mobile vo img scroll vw vh).row j).getD k 0
              = (img.row (scroll + j)).getD k 0) := by
  constructor
  · intro hm
    simp [get_image_data, hm]
  · intro hm hv
    subst hm
    subst hv
    have hg : get_image_data false true img scroll vw vh
        = pilCrop img (viewportCropBox scroll vw vh) := rfl
    refine ⟨hg, ?_, ?_, ?_⟩
    · rw [hg, pilCrop_height]
      simp [viewportCropBox]
    · rw [hg, pilCrop_width]
      simp [viewportCropBox]
    · intro j k hj hk
      rw [hg]
      have hpx := pilCrop_pixel img (viewportCropBox scroll vw vh) j k
        (by simp [viewportCropBox]; omega) (by simp [viewportCropBox]; omega)
      simpa [viewportCropBox] using hpx

def imgC9 : PILImage := { width := 2, rows := [[1, 2], [3, 4], [5, 6]] }

theorem C9_mobile_bypass_witness :
    get_image_data true true imgC9 1 2 1 = imgC9
    ∧ get_image_data false true imgC9 1 2 1 = pilCrop imgC9 (viewportCropBox 1 2 1)
    ∧ (get_image_data false true imgC9 1 2 1).height = 1
    ∧ (get_image_data false true imgC9 1 2 1).width = 2
    ∧ ((get_image_data false true imgC9 1 2 1).row 0).getD 1 0
        = (imgC9.row (1 + 0)).getD 1 0 := by
  have h1 := (C9_mobile_bypass true true imgC9 1 2 1).1 rfl
  have h2 := (C9_mobile_bypass false true imgC9 1 2 1).2 rfl rfl
  exact ⟨h1, h2.1, h2.2.1, h2.2.2.1, h2.2.2.2 0 1 (by decide) (by decide)⟩

def stC10 : ScreenshotState :=
  { paginated := false, headers := none, footers := none, scroll_padding := 100,
    pixel_match_offset := 3, file_extenson := "png" }

def hdrC10 : PILImage := { width := 1, rows := [[1], [2], [3]] }

def ftrC10 : PILImage := { width := 1, rows := [[9], [9], [1]] }

def ftrC10safe : PILImage := { width := 1, rows := [[1], [9], [8]] }

/-- Claim C10: the stitch scan can index past the footer's end.  At the
concrete input the footer's last row (within the last offset - 1 rows) equals
the first block row, so the inner loop reads footer_array[i + y] beyond the
footer and the call returns the IndexError (wrapped by the source into a
ScreenshotException) instead of a stitched image; and whenever no row among
the footer's last offset - 1 rows equals the first block row (with a positive
requested offset and nonempty header), the call returns a stitched image. -/
theorem C10_scan_overrun :
    ((crop_and_stitch_image stC10 hdrC10 ftrC10).1 = .error PyErr.indexError
      ∧ ftrC10.row 2 = hdrC10.row 0
      ∧ ftrC10.height < 2 + stitchOffset stC10.pixel_match_offset hdrC10.height)
    ∧ (∀ (st : ScreenshotState) (header footer : PILImage),
        1 ≤ st.pixel_match_offset → 1 ≤ header.height →
        (∀ j, j < footer.height →
          footer.height < j + stitchOffset st.pixel_match_offset header.height →
          footer.row j ≠ header.row
            (header.height - stitchOffset st.pixel_match_offset header.height)) →
        ∃ img, (crop_and_stitch_image st header footer).1 = .ok img) := by
  constructor
  · exact ⟨rfl, rfl, by decide⟩
  · intro st header footer hpm hh hsafe
    obtain ⟨btail, hblock⟩ := stitchBlock_shape st.pixel_match_offset header hpm hh
    have hblen : (header.row
          (header.height - stitchOffset st.pixel_match_offset header.height)
          :: btail).length
        = stitchOffset st.pixel_match_offset header.height := by
      rw [← hblock, stitchBlock_length]
    obtain ⟨c, hc⟩ := outerScan_safe footer.rows
      (header.row (header.height - stitchOffset st.pixel_match_offset header.height))
      btail (stitchOffset st.pixel_match_offset header.height) hblen
      (fun j hjl hover => hsafe j hjl hover) footer.rows 0 rfl
    have hcrop : computeCropRow st.pixel_match_offset header footer
        = .ok (if c = 0 then header.height else c) := by
      unfold computeCropRow
      rw [hblock, hc]
    exact ⟨_, crop_and_stitch_of_cropRow st header footer _ hcrop⟩

theorem C10_scan_overrun_witness :
    (1 ≤ stC10.pixel_match_offset ∧ 1 ≤ hdrC10.height)
    ∧ ∃ img, (crop_and_stitch_image stC10 hdrC10 ftrC10safe).1 = .ok img := by
  refine ⟨⟨by decide, by decide⟩, ?_⟩
  exact C10_scan_overrun.2 stC10 hdrC10 ftrC10safe (by decide) (by decide) (by decide)
